import Mathlib

/-!
Shallow embedding of `src/bot.py` (a Telegram notification relay for a
Reddit RSS feed).  Text is modelled as `List Char`; Python's `str` helpers
(`strip`, `split`, `replace`, `lower`, substring `in`) are given explicit
list-level definitions mirroring their Python semantics on the ASCII
inputs the program handles.  The module-level mutable state (the `users`
dict and the `seen_posts` set) is modelled by explicit state passing, and
the side-effecting calls (`save_users`, `save_seen`, `bot.send_*`) by
event/trace accumulation.
-/

namespace WatchBot

/-- Text modelled as a list of characters. -/
abbrev Str := List Char

/-- Python `str.strip()` whitespace predicate (ASCII part). -/
def isSpaceChar (c : Char) : Bool :=
  c == ' ' || c == '\t' || c == '\n' || c == '\r' || c == '\x0b' || c == '\x0c'

/-- Characters stripped by `.strip(" '\"")` in `parse_csv_list`. -/
def isQuoteStripChar (c : Char) : Bool :=
  c == ' ' || c == '\x27' || c == '"'

/-- Strip characters satisfying `p` from both ends (Python `str.strip`). -/
def stripAll (p : Char → Bool) (s : Str) : Str :=
  ((s.dropWhile p).reverse.dropWhile p).reverse

/-- Python `str.strip()` (no argument): strip whitespace from both ends. -/
def pyStrip (s : Str) : Str := stripAll isSpaceChar s

/-- Python `str.startswith`: `startsWith pat s` is true iff `pat` is a
prefix of `s`. -/
def startsWith : Str → Str → Bool
  | [], _ => true
  | _ :: _, [] => false
  | p :: ps, c :: cs => p == c && startsWith ps cs

/-- Python substring test `needle in hay`. -/
def containsSub (needle : Str) : Str → Bool
  | [] => needle.isEmpty
  | c :: cs => startsWith needle (c :: cs) || containsSub needle cs

/-- Python `str.lower()` (ASCII part). -/
def lowerStr (s : Str) : Str := s.map Char.toLower

/-- Python `s.split(",")` for the single-character separator `,`:
splits on every comma, keeping empty pieces (`"".split(",") == [""]`). -/
def splitComma : Str → List Str
  | [] => [[]]
  | c :: cs =>
    if c == ',' then [] :: splitComma cs
    else
      match splitComma cs with
      | [] => [[c]]
      | t :: ts => (c :: t) :: ts

/-- Worker for `deleteAll`: `skip` counts characters still to be dropped
from a pattern occurrence already recognized. -/
def deleteAllAux (pat : Str) : Nat → Str → Str
  | _, [] => []
  | Nat.succ k, _ :: cs => deleteAllAux pat k cs
  | 0, c :: cs =>
    if startsWith pat (c :: cs) then deleteAllAux pat (pat.length - 1) cs
    else c :: deleteAllAux pat 0 cs

/-- Python `s.replace(pat, "")` for a non-empty pattern (both call sites
pass `"/u/"` and `"u/"`): delete every leftmost, non-overlapping
occurrence of `pat`. -/
def deleteAll (pat s : Str) : Str := deleteAllAux pat 0 s

/-- The function `parse_csv_list` from `src/bot.py`: replace `;` by `,`, split on `,`,
strip whitespace then `" '\""` from each token, keep the non-empty ones. -/
def parse_csv_list (s : Str) : List Str :=
  let parts := splitComma (s.map (fun c => if c == ';' then ',' else c))
  (parts.map (fun p => stripAll isQuoteStripChar (pyStrip p))).filter
    (fun x => !x.isEmpty)

/-- The lower-casing applied at the call sites of `parse_csv_list`
(`[k.lower() for k in parse_csv_list(rest)]`). -/
def parseLower (s : Str) : List Str := (parse_csv_list s).map lowerStr

/-- Character class `[a-z0-9]` of the post-id regex. -/
def isIdChar (c : Char) : Bool := c.isLower || c.isDigit

/-- The literal `"/comments/"` of the post-id regex. -/
def commentsPat : Str := ['/', 'c', 'o', 'm', 'm', 'e', 'n', 't', 's', '/']

/-- Embeds `re.search(r"/comments/([a-z0-9]+)/", link)`: scan left to right for
an occurrence of `/comments/` followed by a non-empty run of `[a-z0-9]`
followed by `/`; return the run of the leftmost successful position. -/
def findCommentsId : Str → Option Str
  | [] => none
  | c :: cs =>
    if startsWith commentsPat (c :: cs) then
      let rest := cs.drop 9
      let run := rest.takeWhile isIdChar
      if !run.isEmpty && ((rest.drop run.length).head? == some '/') then some run
      else findCommentsId cs
    else findCommentsId cs

/-- The function `extract_post_id` from `src/bot.py`. -/
def extract_post_id (link : Str) : Str :=
  if link.isEmpty then []
  else
    match findCommentsId link with
    | some g => g
    | none => pyStrip link

/-- Character class `[A-Za-z0-9_-]` of the author regex. -/
def isWordChar (c : Char) : Bool :=
  c.isAlpha || c.isDigit || c == '_' || c == '-'

/-- Embeds `re.search(r"u/([A-Za-z0-9_-]+)", a)`: scan left to right for `u`
followed by `/` followed by a non-empty run of `[A-Za-z0-9_-]`; return the
run of the leftmost successful position. -/
def findUserName : Str → Option Str
  | [] => none
  | 'u' :: '/' :: rest =>
    let run := rest.takeWhile isWordChar
    if !run.isEmpty then some run else findUserName ('/' :: rest)
  | _ :: cs => findUserName cs

/-- The function `normalize_author` from `src/bot.py`. -/
def normalize_author (raw : Str) : Str :=
  if raw.isEmpty then []
  else
    let a := pyStrip raw
    match findUserName a with
    | some g => lowerStr g
    | none =>
      pyStrip (deleteAll ['u', '/'] (deleteAll ['/', 'u', '/'] (lowerStr a)))

/-- The `mode` field of a user config: `null`, `"await_keywords"` or
`"await_authors"` in `users.json`. -/
inductive Mode where
  | none
  | await_keywords
  | await_authors
deriving DecidableEq, Repr

/-- One user's configuration (one value of the `users` dict). -/
structure UserCfg where
  keywords : List Str
  tracked_users : List Str
  mode : Mode
deriving DecidableEq, Repr

/-- The default config created on first contact. -/
def defaultCfg : UserCfg := ⟨[], [], Mode.none⟩

/-- The `users` dict: an insertion-ordered association list with unique
keys, keyed by chat id. -/
abbrev Registry := List (Nat × UserCfg)

/-- Dict lookup `users.get(chat_id_str)`. -/
def lookupCfg (users : Registry) (k : Nat) : Option UserCfg :=
  match users with
  | [] => Option.none
  | (k2, cfg) :: rest => if k2 == k then some cfg else lookupCfg rest k

/-- Dict assignment `users[chat_id_str] = cfg`: update in place if the
key is present, otherwise append (dict insertion order). -/
def setCfg (users : Registry) (k : Nat) (cfg : UserCfg) : Registry :=
  match users with
  | [] => [(k, cfg)]
  | (k2, c2) :: rest =>
    if k2 == k then (k2, cfg) :: rest else (k2, c2) :: setCfg rest k cfg

/-- The config the handler works with for `chat` (the default one if the
chat id is absent). -/
def cfgOf (users : Registry) (k : Nat) : UserCfg :=
  (lookupCfg users k).getD defaultCfg

/-- The replies `handle_text_message` can send, abstracted to which
branch produced them and with which data (the literal message texts carry
no further state). -/
inductive Reply where
  | welcome
  | helpMsg
  | settings (keywords tracked : List Str)
  | keywordsCleared
  | promptKeywords
  | keywordsUpdated (kws : List Str)
  | authorsCleared
  | promptAuthors
  | authorsUpdated (auths : List Str)
  | unrecognized
deriving DecidableEq, Repr

/-- Result of one `handle_text_message` call: the updated `users` dict,
the snapshots passed to `save_users` (in call order), and the replies
sent (in call order). -/
structure HandleResult where
  users : Registry
  saves : List Registry
  replies : List (Nat × Reply)
deriving DecidableEq, Repr

def startCmdText : Str := ['/', 's', 't', 'a', 'r', 't']
def helpCmdText : Str := ['/', 'h', 'e', 'l', 'p']
def settingsCmdText : Str := ['/', 's', 'e', 't', 't', 'i', 'n', 'g', 's']
def kwCmdText : Str := ['/', 'k', 'e', 'y', 'w', 'o', 'r', 'd', 's']
def auCmdText : Str := ['/', 'a', 'u', 't', 'h', 'o', 'r', 's']
def clearWord : Str := ['c', 'l', 'e', 'a', 'r']

/-- The function `handle_text_message` from `src/bot.py`.  The body mirrors the source
line by line: trim the text, ensure a config exists for the chat id, then
take the first matching branch (`/start`, `/help`, `/settings`,
`/keywords`, `/authors`, the two awaiting modes, unrecognized). -/
def handle_text_message (users : Registry) (chat : Nat) (text0 : Str) :
    HandleResult :=
  let text := pyStrip text0
  -- `if chat_id_str not in users: users[chat_id_str] = {...}`
  let ensured :=
    match lookupCfg users chat with
    | some c => (users, c)
    | Option.none => (setCfg users chat defaultCfg, defaultCfg)
  let users1 := ensured.1
  let cfg := ensured.2
  let mode := cfg.mode
  if startsWith startCmdText text then
    -- the two `setdefault` calls are no-ops here (fields are total)
    let cfg2 := { cfg with mode := Mode.none }
    let users2 := setCfg users1 chat cfg2
    ⟨users2, [users2], [(chat, Reply.welcome)]⟩
  else if startsWith helpCmdText text then
    let cfg2 := { cfg with mode := Mode.none }
    let users2 := setCfg users1 chat cfg2
    ⟨users2, [users2], [(chat, Reply.helpMsg)]⟩
  else if startsWith settingsCmdText text then
    let cfg2 := { cfg with mode := Mode.none }
    let users2 := setCfg users1 chat cfg2
    ⟨users2, [users2], [(chat, Reply.settings cfg.keywords cfg.tracked_users)]⟩
  else if startsWith kwCmdText text then
    let rest := pyStrip (text.drop kwCmdText.length)
    if lowerStr rest == clearWord then
      let cfg2 := { cfg with keywords := [], mode := Mode.none }
      let users2 := setCfg users1 chat cfg2
      ⟨users2, [users2], [(chat, Reply.keywordsCleared)]⟩
    else if rest.isEmpty then
      let cfg2 := { cfg with mode := Mode.await_keywords }
      let users2 := setCfg users1 chat cfg2
      ⟨users2, [users2], [(chat, Reply.promptKeywords)]⟩
    else
      let kws := parseLower rest
      let cfg2 := { cfg with keywords := kws, mode := Mode.none }
      let users2 := setCfg users1 chat cfg2
      ⟨users2, [users2], [(chat, Reply.keywordsUpdated kws)]⟩
  else if startsWith auCmdText text then
    let rest := pyStrip (text.drop auCmdText.length)
    if lowerStr rest == clearWord then
      let cfg2 := { cfg with tracked_users := [], mode := Mode.none }
      let users2 := setCfg users1 chat cfg2
      ⟨users2, [users2], [(chat, Reply.authorsCleared)]⟩
    else if rest.isEmpty then
      let cfg2 := { cfg with mode := Mode.await_authors }
      let users2 := setCfg users1 chat cfg2
      ⟨users2, [users2], [(chat, Reply.promptAuthors)]⟩
    else
      let auths := parseLower rest
      let cfg2 := { cfg with tracked_users := auths, mode := Mode.none }
      let users2 := setCfg users1 chat cfg2
      ⟨users2, [users2], [(chat, Reply.authorsUpdated auths)]⟩
  else if mode = Mode.await_keywords then
    let kws := parseLower text
    let cfg2 := { cfg with keywords := kws, mode := Mode.none }
    let users2 := setCfg users1 chat cfg2
    ⟨users2, [users2], [(chat, Reply.keywordsUpdated kws)]⟩
  else if mode = Mode.await_authors then
    let auths := parseLower text
    let cfg2 := { cfg with tracked_users := auths, mode := Mode.none }
    let users2 := setCfg users1 chat cfg2
    ⟨users2, [users2], [(chat, Reply.authorsUpdated auths)]⟩
  else
    ⟨users1, [], [(chat, Reply.unrecognized)]⟩

/-- One RSS entry, restricted to the fields the dispatch decisions read
(the summary/thumbnail only selects photo-vs-text transport, which every
claim treats as the same "send"). -/
structure Entry where
  link : Str
  author : Str
  title : Str
deriving DecidableEq, Repr

/-- Observable events of the feed tick: a message send (to `chat`, for
post `post`, annotated with `label`) or a `save_seen` call persisting the
given ledger contents. -/
inductive Ev where
  | send (chat : Nat) (post : Str) (label : Str)
  | persistSeen (ledger : List Str)
deriving DecidableEq, Repr

def isPersistEv : Ev → Bool
  | Ev.persistSeen _ => true
  | _ => false

def isSendEv : Ev → Bool
  | Ev.send _ _ _ => true
  | _ => false

def taLabel : Str := "tracked author".toList
def tkLabel : Str := "tracked author + keyword match".toList
def kmLabelHead : Str := "keyword match: ".toList
def unknownWord : Str := "unknown".toList
def commaSpace : Str := [',', ' ']

/-- Python `", ".join(xs)`. -/
def joinSep (sep : Str) : List Str → Str
  | [] => []
  | [x] => x
  | x :: y :: xs => x ++ sep ++ joinSep sep (y :: xs)

/-- The per-subscriber body of the feed loop (`src/bot.py` lines
544-590): decide whether to send, and with which `source_label`. -/
def dispatchForUser (author_norm title_lower post : Str) (chat : Nat)
    (cfg : UserCfg) : Option Ev :=
  let author_ok := cfg.tracked_users.contains author_norm
  let keyword_ok := cfg.keywords.any (fun kw => containsSub kw title_lower)
  if !(author_ok || keyword_ok) then Option.none
  else
    let label :=
      if author_ok && keyword_ok then tkLabel
      else if author_ok then taLabel
      else
        let matched := cfg.keywords.filter (fun kw => containsSub kw title_lower)
        let joined := joinSep commaSpace matched
        kmLabelHead ++ (if joined.isEmpty then unknownWord else joined)
    some (Ev.send chat post label)

/-- Per-entry, per-subscriber dispatch as the loop computes it:
`author_norm = normalize_author(entry.author)` and
`title_lower = entry.title.lower()`. -/
def evalEntryForUser (e : Entry) (chat : Nat) (cfg : UserCfg) : Option Ev :=
  dispatchForUser (normalize_author e.author) (lowerStr e.title)
    (extract_post_id e.link) chat cfg

/-- The per-entry body of the feed loop: skip if the post id is already
seen, otherwise dispatch to every subscriber in registry order, then add
the id to the in-memory ledger and call `save_seen`. -/
def processEntry (users : Registry) (seen : List Str) (e : Entry) :
    List Ev × List Str :=
  let pid := extract_post_id e.link
  if seen.contains pid then ([], seen)
  else
    let sends := users.filterMap (fun kv => evalEntryForUser e kv.1 kv.2)
    let seen2 := pid :: seen
    (sends ++ [Ev.persistSeen seen2], seen2)

/-- One feed tick (`for entry in feed.entries: ...`): process the entries
in feed order, threading the seen ledger and accumulating events. -/
def feedTick (users : Registry) (seen : List Str) :
    List Entry → List Ev × List Str
  | [] => ([], seen)
  | e :: es =>
    let r := processEntry users seen e
    let r2 := feedTick users r.2 es
    (r.1 ++ r2.1, r2.2)

/-! ### Spec-side definitions (from the wording of the specification,
for refinement comparisons against the code-derived definitions). -/

/-- Modelled from the spec wording of §4.4 list parsing: split directly
on `,` **and** `;` (rather than the source's replace-then-split). -/
def splitEither : Str → List Str
  | [] => [[]]
  | c :: cs =>
    if c == ',' || c == ';' then [] :: splitEither cs
    else
      match splitEither cs with
      | [] => [[c]]
      | t :: ts => (c :: t) :: ts

/-- Spec-side list parsing (§4.4): split on `,`/`;`, trim, strip quotes,
lower-case every token, drop the empty ones, preserving order. -/
def specParseList (s : Str) : List Str :=
  ((splitEither s).map (fun t => lowerStr (stripAll isQuoteStripChar (pyStrip t)))).filter
    (fun x => !x.isEmpty)

/-- Spec-side match decision and label (§4.3): deliver iff author match
or some keyword matches; label precedence both/author-only/keyword-only,
the last being `"keyword match: "` followed by the comma-joined matched
keywords in config order (no fallback word). -/
def specDecision (cfg : UserCfg) (author_norm title_lower : Str) : Option Str :=
  let authorMatch := cfg.tracked_users.contains author_norm
  let keywordMatches := cfg.keywords.filter (fun kw => containsSub kw title_lower)
  if authorMatch && !keywordMatches.isEmpty then some tkLabel
  else if authorMatch then some taLabel
  else if !keywordMatches.isEmpty then
    some (kmLabelHead ++ joinSep commaSpace keywordMatches)
  else Option.none

/-! ### Helper lemmas -/

theorem splitComma_ne_nil (s : Str) : splitComma s ≠ [] := by
  cases s with
  | nil => simp [splitComma]
  | cons c cs =>
    simp only [splitComma]
    by_cases h : (c == ',') = true
    · simp [h]
    · simp only [h]
      cases hs : splitComma cs <;> simp

theorem splitComma_map (s : Str) :
    splitComma (s.map (fun c => if c == ';' then ',' else c)) = splitEither s := by
  induction s with
  | nil => rfl
  | cons c cs ih =>
    simp only [List.map_cons, splitComma, splitEither, ih]
    by_cases h1 : (c == ';') = true
    · simp [h1]
    · by_cases h2 : (c == ',') = true
      · simp [h1, h2]
      · simp [h1, h2]

theorem lowerStr_isEmpty (x : Str) : (lowerStr x).isEmpty = x.isEmpty := by
  cases x <;> rfl

theorem filter_map_lower (l : List Str) :
    (l.filter (fun x => !x.isEmpty)).map lowerStr =
      (l.map lowerStr).filter (fun x => !x.isEmpty) := by
  induction l with
  | nil => rfl
  | cons x xs ih =>
    by_cases h : x.isEmpty = true
    · have h2 : (lowerStr x).isEmpty = true := by rw [lowerStr_isEmpty, h]
      simp [List.filter_cons, h, h2, ih]
    · have h2 : (lowerStr x).isEmpty = false := by
        rw [lowerStr_isEmpty]; simpa using h
      simp [List.filter_cons, h, h2, ih]

/-- Mutating nothing but the `mode` field of an existing entry (no-op if
the chat id is absent); used to state that command handling ignores the
stored mode. -/
def setMode (users : Registry) (k : Nat) (m : Mode) : Registry :=
  match lookupCfg users k with
  | some c => setCfg users k { c with mode := m }
  | Option.none => users

/-- The registry after the handler's ensure-entry step. -/
def ensureUser (users : Registry) (k : Nat) : Registry :=
  match lookupCfg users k with
  | some _ => users
  | Option.none => setCfg users k defaultCfg

theorem lookup_setCfg_self (u : Registry) (k : Nat) (c : UserCfg) :
    lookupCfg (setCfg u k c) k = some c := by
  induction u with
  | nil => simp [setCfg, lookupCfg]
  | cons kv rest ih =>
    obtain ⟨k2, c2⟩ := kv
    by_cases h : (k2 == k) = true
    · simp [setCfg, lookupCfg, h]
    · simp [setCfg, lookupCfg, h, ih]

theorem setCfg_setCfg (u : Registry) (k : Nat) (a b : UserCfg) :
    setCfg (setCfg u k a) k b = setCfg u k b := by
  induction u with
  | nil => simp [setCfg]
  | cons kv rest ih =>
    obtain ⟨k2, c2⟩ := kv
    by_cases h : (k2 == k) = true
    · simp [setCfg, h]
    · simp [setCfg, h, ih]

/-! Branch lemmas for `handle_text_message`: one per branch of the
source function, each under the boolean conditions that select it. -/

theorem handle_start_branch (users : Registry) (chat : Nat) (text0 : Str)
    (h1 : startsWith startCmdText (pyStrip text0) = true) :
    handle_text_message users chat text0 =
      ⟨setCfg (ensureUser users chat) chat
          { cfgOf users chat with mode := Mode.none },
        [setCfg (ensureUser users chat) chat
          { cfgOf users chat with mode := Mode.none }],
        [(chat, Reply.welcome)]⟩ := by
  unfold handle_text_message ensureUser cfgOf
  cases hl : lookupCfg users chat <;> simp [hl, h1]

theorem handle_help_branch (users : Registry) (chat : Nat) (text0 : Str)
    (h1 : startsWith startCmdText (pyStrip text0) = false)
    (h2 : startsWith helpCmdText (pyStrip text0) = true) :
    handle_text_message users chat text0 =
      ⟨setCfg (ensureUser users chat) chat
          { cfgOf users chat with mode := Mode.none },
        [setCfg (ensureUser users chat) chat
          { cfgOf users chat with mode := Mode.none }],
        [(chat, Reply.helpMsg)]⟩ := by
  unfold handle_text_message ensureUser cfgOf
  cases hl : lookupCfg users chat <;> simp [hl, h1, h2]

theorem handle_settings_branch (users : Registry) (chat : Nat) (text0 : Str)
    (h1 : startsWith startCmdText (pyStrip text0) = false)
    (h2 : startsWith helpCmdText (pyStrip text0) = false)
    (h3 : startsWith settingsCmdText (pyStrip text0) = true) :
    handle_text_message users chat text0 =
      ⟨setCfg (ensureUser users chat) chat
          { cfgOf users chat with mode := Mode.none },
        [setCfg (ensureUser users chat) chat
          { cfgOf users chat with mode := Mode.none }],
        [(chat, Reply.settings (cfgOf users chat).keywords
          (cfgOf users chat).tracked_users)]⟩ := by
  unfold handle_text_message ensureUser cfgOf
  cases hl : lookupCfg users chat <;> simp [hl, h1, h2, h3]

theorem handle_kw_clear_branch (users : Registry) (chat : Nat) (text0 : Str)
    (h1 : startsWith startCmdText (pyStrip text0) = false)
    (h2 : startsWith helpCmdText (pyStrip text0) = false)
    (h3 : startsWith settingsCmdText (pyStrip text0) = false)
    (h4 : startsWith kwCmdText (pyStrip text0) = true)
    (h5 : (lowerStr (pyStrip ((pyStrip text0).drop kwCmdText.length)) ==
      clearWord) = true) :
    handle_text_message users chat text0 =
      ⟨setCfg (ensureUser users chat) chat
          { cfgOf users chat with keywords := [], mode := Mode.none },
        [setCfg (ensureUser users chat) chat
          { cfgOf users chat with keywords := [], mode := Mode.none }],
        [(chat, Reply.keywordsCleared)]⟩ := by
  unfold handle_text_message ensureUser cfgOf
  cases hl : lookupCfg users chat <;> simp [hl, h1, h2, h3, h4, h5]

theorem handle_kw_empty_branch (users : Registry) (chat : Nat) (text0 : Str)
    (h1 : startsWith startCmdText (pyStrip text0) = false)
    (h2 : startsWith helpCmdText (pyStrip text0) = false)
    (h3 : startsWith settingsCmdText (pyStrip text0) = false)
    (h4 : startsWith kwCmdText (pyStrip text0) = true)
    (h5 : (lowerStr (pyStrip ((pyStrip text0).drop kwCmdText.length)) ==
      clearWord) = false)
    (h6 : (pyStrip ((pyStrip text0).drop kwCmdText.length)).isEmpty = true) :
    handle_text_message users chat text0 =
      ⟨setCfg (ensureUser users chat) chat
          { cfgOf users chat with mode := Mode.await_keywords },
        [setCfg (ensureUser users chat) chat
          { cfgOf users chat with mode := Mode.await_keywords }],
        [(chat, Reply.promptKeywords)]⟩ := by
  unfold handle_text_message ensureUser cfgOf
  cases hl : lookupCfg users chat <;> simp [hl, h1, h2, h3, h4, h5, h6]

theorem handle_kw_args_branch (users : Registry) (chat : Nat) (text0 : Str)
    (h1 : startsWith startCmdText (pyStrip text0) = false)
    (h2 : startsWith helpCmdText (pyStrip text0) = false)
    (h3 : startsWith settingsCmdText (pyStrip text0) = false)
    (h4 : startsWith kwCmdText (pyStrip text0) = true)
    (h5 : (lowerStr (pyStrip ((pyStrip text0).drop kwCmdText.length)) ==
      clearWord) = false)
    (h6 : (pyStrip ((pyStrip text0).drop kwCmdText.length)).isEmpty = false) :
    handle_text_message users chat text0 =
      ⟨setCfg (ensureUser users chat) chat
          { cfgOf users chat with
            keywords := parseLower (pyStrip ((pyStrip text0).drop kwCmdText.length)),
            mode := Mode.none },
        [setCfg (ensureUser users chat) chat
          { cfgOf users chat with
            keywords := parseLower (pyStrip ((pyStrip text0).drop kwCmdText.length)),
            mode := Mode.none }],
        [(chat, Reply.keywordsUpdated
          (parseLower (pyStrip ((pyStrip text0).drop kwCmdText.length))))]⟩ := by
  unfold handle_text_message ensureUser cfgOf
  cases hl : lookupCfg users chat <;> simp [hl, h1, h2, h3, h4, h5, h6]

theorem handle_au_clear_branch (users : Registry) (chat : Nat) (text0 : Str)
    (h1 : startsWith startCmdText (pyStrip text0) = false)
    (h2 : startsWith helpCmdText (pyStrip text0) = false)
    (h3 : startsWith settingsCmdText (pyStrip text0) = false)
    (h4 : startsWith kwCmdText (pyStrip text0) = false)
    (h4a : startsWith auCmdText (pyStrip text0) = true)
    (h5 : (lowerStr (pyStrip ((pyStrip text0).drop auCmdText.length)) ==
      clearWord) = true) :
    handle_text_message users chat text0 =
      ⟨setCfg (ensureUser users chat) chat
          { cfgOf users chat with tracked_users := [], mode := Mode.none },
        [setCfg (ensureUser users chat) chat
          { cfgOf users chat with tracked_users := [], mode := Mode.none }],
        [(chat, Reply.authorsCleared)]⟩ := by
  unfold handle_text_message ensureUser cfgOf
  cases hl : lookupCfg users chat <;> simp [hl, h1, h2, h3, h4, h4a, h5]

theorem handle_au_empty_branch (users : Registry) (chat : Nat) (text0 : Str)
    (h1 : startsWith startCmdText (pyStrip text0) = false)
    (h2 : startsWith helpCmdText (pyStrip text0) = false)
    (h3 : startsWith settingsCmdText (pyStrip text0) = false)
    (h4 : startsWith kwCmdText (pyStrip text0) = false)
    (h4a : startsWith auCmdText (pyStrip text0) = true)
    (h5 : (lowerStr (pyStrip ((pyStrip text0).drop auCmdText.length)) ==
      clearWord) = false)
    (h6 : (pyStrip ((pyStrip text0).drop auCmdText.length)).isEmpty = true) :
    handle_text_message users chat text0 =
      ⟨setCfg (ensureUser users chat) chat
          { cfgOf users chat with mode := Mode.await_authors },
        [setCfg (ensureUser users chat) chat
          { cfgOf users chat with mode := Mode.await_authors }],
        [(chat, Reply.promptAuthors)]⟩ := by
  unfold handle_text_message ensureUser cfgOf
  cases hl : lookupCfg users chat <;> simp [hl, h1, h2, h3, h4, h4a, h5, h6]

theorem handle_au_args_branch (users : Registry) (chat : Nat) (text0 : Str)
    (h1 : startsWith startCmdText (pyStrip text0) = false)
    (h2 : startsWith helpCmdText (pyStrip text0) = false)
    (h3 : startsWith settingsCmdText (pyStrip text0) = false)
    (h4 : startsWith kwCmdText (pyStrip text0) = false)
    (h4a : startsWith auCmdText (pyStrip text0) = true)
    (h5 : (lowerStr (pyStrip ((pyStrip text0).drop auCmdText.length)) ==
      clearWord) = false)
    (h6 : (pyStrip ((pyStrip text0).drop auCmdText.length)).isEmpty = false) :
    handle_text_message users chat text0 =
      ⟨setCfg (ensureUser users chat) chat
          { cfgOf users chat with
            tracked_users := parseLower (pyStrip ((pyStrip text0).drop auCmdText.length)),
            mode := Mode.none },
        [setCfg (ensureUser users chat) chat
          { cfgOf users chat with
            tracked_users := parseLower (pyStrip ((pyStrip text0).drop auCmdText.length)),
            mode := Mode.none }],
        [(chat, Reply.authorsUpdated
          (parseLower (pyStrip ((pyStrip text0).drop auCmdText.length))))]⟩ := by
  unfold handle_text_message ensureUser cfgOf
  cases hl : lookupCfg users chat <;> simp [hl, h1, h2, h3, h4, h4a, h5, h6]

theorem handle_await_kw_branch (users : Registry) (chat : Nat) (text0 : Str)
    (h1 : startsWith startCmdText (pyStrip text0) = false)
    (h2 : startsWith helpCmdText (pyStrip text0) = false)
    (h3 : startsWith settingsCmdText (pyStrip text0) = false)
    (h4 : startsWith kwCmdText (pyStrip text0) = false)
    (h4a : startsWith auCmdText (pyStrip text0) = false)
    (hm : (cfgOf users chat).mode = Mode.await_keywords) :
    handle_text_message users chat text0 =
      ⟨setCfg (ensureUser users chat) chat
          { cfgOf users chat with
            keywords := parseLower (pyStrip text0), mode := Mode.none },
        [setCfg (ensureUser users chat) chat
          { cfgOf users chat with
            keywords := parseLower (pyStrip text0), mode := Mode.none }],
        [(chat, Reply.keywordsUpdated (parseLower (pyStrip text0)))]⟩ := by
  unfold handle_text_message ensureUser cfgOf
  unfold cfgOf at hm
  cases hl : lookupCfg users chat <;> rw [hl] at hm <;>
    simp only [Option.getD] at hm <;> simp [hl, h1, h2, h3, h4, h4a, hm]

theorem handle_await_au_branch (users : Registry) (chat : Nat) (text0 : Str)
    (h1 : startsWith startCmdText (pyStrip text0) = false)
    (h2 : startsWith helpCmdText (pyStrip text0) = false)
    (h3 : startsWith settingsCmdText (pyStrip text0) = false)
    (h4 : startsWith kwCmdText (pyStrip text0) = false)
    (h4a : startsWith auCmdText (pyStrip text0) = false)
    (hm : (cfgOf users chat).mode = Mode.await_authors) :
    handle_text_message users chat text0 =
      ⟨setCfg (ensureUser users chat) chat
          { cfgOf users chat with
            tracked_users := parseLower (pyStrip text0), mode := Mode.none },
        [setCfg (ensureUser users chat) chat
          { cfgOf users chat with
            tracked_users := parseLower (pyStrip text0), mode := Mode.none }],
        [(chat, Reply.authorsUpdated (parseLower (pyStrip text0)))]⟩ := by
  unfold handle_text_message ensureUser cfgOf
  unfold cfgOf at hm
  cases hl : lookupCfg users chat <;> rw [hl] at hm <;>
    simp only [Option.getD] at hm <;> simp [hl, h1, h2, h3, h4, h4a, hm]

theorem handle_fallback_branch (users : Registry) (chat : Nat) (text0 : Str)
    (h1 : startsWith startCmdText (pyStrip text0) = false)
    (h2 : startsWith helpCmdText (pyStrip text0) = false)
    (h3 : startsWith settingsCmdText (pyStrip text0) = false)
    (h4 : startsWith kwCmdText (pyStrip text0) = false)
    (h4a : startsWith auCmdText (pyStrip text0) = false)
    (hm : (cfgOf users chat).mode = Mode.none) :
    handle_text_message users chat text0 =
      ⟨ensureUser users chat, [], [(chat, Reply.unrecognized)]⟩ := by
  unfold handle_text_message ensureUser
  unfold cfgOf at hm
  cases hl : lookupCfg users chat <;> rw [hl] at hm <;>
    simp only [Option.getD] at hm <;> simp [hl, h1, h2, h3, h4, h4a, hm]

/-! Prefix and strip lemmas for reasoning about command texts. -/

theorem startsWith_append_self (p x : Str) : startsWith p (p ++ x) = true := by
  induction p with
  | nil => simp [startsWith]
  | cons a ps ih => simp [startsWith, ih]

theorem startsWith_takeWhile (p : Char → Bool) (l : Str) :
    startsWith (l.takeWhile p) l = true := by
  induction l with
  | nil => simp [startsWith]
  | cons c cs ih =>
    by_cases h : p c = true
    · simp [List.takeWhile_cons, h, startsWith, ih]
    · simp [List.takeWhile_cons, h, startsWith]

theorem startsWith_append_false (p q x : Str)
    (hpq : startsWith p q = false) (hqp : startsWith q p = false) :
    startsWith p (q ++ x) = false := by
  induction p generalizing q with
  | nil => simp [startsWith] at hpq
  | cons a ps ih =>
    cases q with
    | nil => simp [startsWith] at hqp
    | cons b qs =>
      simp only [List.cons_append, startsWith] at hpq hqp ⊢
      by_cases hab : (a == b) = true
      · have hba : (b == a) = true := by
          have : a = b := by simpa using hab
          simp [this]
        simp only [hab, Bool.true_and] at hpq
        simp only [hba, Bool.true_and] at hqp
        simp [hab, ih qs hpq hqp]
      · simp [hab]

theorem startsWith_append_eq (p q x : Str) (hlen : p.length ≤ q.length) :
    startsWith p (q ++ x) = startsWith p q := by
  induction p generalizing q with
  | nil => simp [startsWith]
  | cons a ps ih =>
    cases q with
    | nil => simp at hlen
    | cons b qs =>
      simp only [List.cons_append, startsWith]
      rw [show qs.append x = qs ++ x from rfl, ih qs (by simpa using hlen)]

theorem dropWhile_append_of_head (p : Char → Bool) (a b : Str)
    (hb : b.dropWhile p = b) : (a ++ b).dropWhile p = a.dropWhile p ++ b := by
  induction a with
  | nil => simpa using hb
  | cons x xs ih =>
    by_cases h : p x = true
    · simp [List.dropWhile_cons, h, ih]
    · simp [List.dropWhile_cons, h]

/-- Evaluating `pyStrip` on a command literal followed by anything: the leading
strip is a no-op and the trailing strip only touches the suffix. -/
theorem pyStrip_append_cmd (c : Char) (t s : Str)
    (hc : isSpaceChar c = false)
    (h2 : (c :: t).reverse.dropWhile isSpaceChar = (c :: t).reverse) :
    pyStrip ((c :: t) ++ s) =
      (c :: t) ++ (s.reverse.dropWhile isSpaceChar).reverse := by
  unfold pyStrip stripAll
  have s1 : ((c :: t) ++ s).dropWhile isSpaceChar = (c :: t) ++ s := by
    simp [List.cons_append, List.dropWhile_cons, hc]
  rw [s1, List.reverse_append, dropWhile_append_of_head _ _ _ h2,
    List.reverse_append, List.reverse_reverse]

/-! `setMode` interaction lemmas (for "regardless of mode" statements). -/

theorem lookup_setMode (users : Registry) (k : Nat) (m : Mode) :
    lookupCfg (setMode users k m) k =
      (lookupCfg users k).map (fun c => { c with mode := m }) := by
  unfold setMode
  cases hl : lookupCfg users k
  · simp [hl]
  · simp [lookup_setCfg_self]

theorem setCfg_ensure_setMode (users : Registry) (k : Nat) (m : Mode)
    (c : UserCfg) :
    setCfg (ensureUser (setMode users k m) k) k c =
      setCfg (ensureUser users k) k c := by
  unfold setMode ensureUser
  cases hl : lookupCfg users k
  · simp [hl]
  · simp [hl, lookup_setCfg_self, setCfg_setCfg]

theorem cfgOf_setMode_keywords (users : Registry) (k : Nat) (m : Mode) :
    (cfgOf (setMode users k m) k).keywords = (cfgOf users k).keywords := by
  unfold cfgOf
  rw [lookup_setMode]
  cases lookupCfg users k <;> rfl

theorem cfgOf_setMode_tracked (users : Registry) (k : Nat) (m : Mode) :
    (cfgOf (setMode users k m) k).tracked_users =
      (cfgOf users k).tracked_users := by
  unfold cfgOf
  rw [lookup_setMode]
  cases lookupCfg users k <;> rfl

/-- C7: list parsing splits on `,` and `;`, trims tokens, strips
surrounding quotes, drops empty tokens, lower-cases the retained ones and
preserves order without deduplication; in particular
`parseList("Seiko, OMEGA ; 'tudor'") = ["seiko", "omega", "tudor"]`.
Stated as the concrete evaluation plus the equality of the code's
parsing pipeline with the spec-side `specParseList`. -/
theorem C7_list_parsing :
    parseLower "Seiko, OMEGA ; 'tudor'".toList =
      ["seiko".toList, "omega".toList, "tudor".toList] ∧
    ∀ s : Str, parseLower s = specParseList s := by
  constructor
  · decide
  · intro s
    unfold parseLower parse_csv_list specParseList
    rw [splitComma_map, filter_map_lower, List.map_map]
    rfl

/-- C8: author normalization maps `"/u/Vast_Requirement8134"`,
`"u/Vast_Requirement8134"` and `"Vast_Requirement8134"` all to
`"vast_requirement8134"`. -/
theorem C8_author_normalization :
    normalize_author "/u/Vast_Requirement8134".toList = "vast_requirement8134".toList ∧
    normalize_author "u/Vast_Requirement8134".toList = "vast_requirement8134".toList ∧
    normalize_author "Vast_Requirement8134".toList = "vast_requirement8134".toList :=
  ⟨by decide, by decide, by decide⟩

/-- C5: `/keywords` with empty argument puts the subscriber into the
awaiting-keywords mode; a subsequent plain message `"x,y"` replaces the
keyword set with `["x", "y"]` and resets the mode to NONE — for any
starting registry and chat id. -/
theorem C5_keywords_two_turn (users : Registry) (chat : Nat) :
    (cfgOf (handle_text_message users chat kwCmdText).users chat).mode =
      Mode.await_keywords ∧
    (cfgOf (handle_text_message
        (handle_text_message users chat kwCmdText).users chat
        "x,y".toList).users chat).keywords = ["x".toList, "y".toList] ∧
    (cfgOf (handle_text_message
        (handle_text_message users chat kwCmdText).users chat
        "x,y".toList).users chat).mode = Mode.none := by
  have e1 := handle_kw_empty_branch users chat kwCmdText
    (by decide) (by decide) (by decide) (by decide) (by decide) (by decide)
  have hm2 : (cfgOf (handle_text_message users chat kwCmdText).users chat).mode =
      Mode.await_keywords := by
    rw [e1]
    unfold cfgOf
    rw [lookup_setCfg_self]
    rfl
  have e2 := handle_await_kw_branch
    (handle_text_message users chat kwCmdText).users chat "x,y".toList
    (by decide) (by decide) (by decide) (by decide) (by decide) hm2
  refine ⟨hm2, ?_, ?_⟩
  · rw [e2]
    unfold cfgOf
    rw [lookup_setCfg_self]
    show parseLower (pyStrip "x,y".toList) = ["x".toList, "y".toList]
    decide
  · rw [e2]
    unfold cfgOf
    rw [lookup_setCfg_self]
    rfl

/-- C9: command recognition is prefix-based, not token-based:
`"/keywordsclear"` is handled as `/keywords` with argument `"clear"` and
empties the keyword set, and any text starting with `"/settings"` renders
the settings view (and resets the mode). -/
theorem C9_prefix_based_commands :
    (∀ (users : Registry) (chat : Nat),
      (cfgOf (handle_text_message users chat "/keywordsclear".toList).users chat).keywords
          = [] ∧
      (cfgOf (handle_text_message users chat "/keywordsclear".toList).users chat).mode
          = Mode.none ∧
      (handle_text_message users chat "/keywordsclear".toList).replies =
        [(chat, Reply.keywordsCleared)]) ∧
    (∀ (users : Registry) (chat : Nat) (s : Str),
      (handle_text_message users chat (settingsCmdText ++ s)).replies =
        [(chat, Reply.settings (cfgOf users chat).keywords
          (cfgOf users chat).tracked_users)] ∧
      (cfgOf (handle_text_message users chat (settingsCmdText ++ s)).users chat).mode
        = Mode.none) := by
  constructor
  · intro users chat
    have e := handle_kw_clear_branch users chat "/keywordsclear".toList
      (by decide) (by decide) (by decide) (by decide) (by decide)
    refine ⟨?_, ?_, ?_⟩
    · rw [e]
      unfold cfgOf
      rw [lookup_setCfg_self]
      rfl
    · rw [e]
      unfold cfgOf
      rw [lookup_setCfg_self]
      rfl
    · rw [e]
  · intro users chat s
    have f0 : pyStrip (settingsCmdText ++ s) =
        settingsCmdText ++ (s.reverse.dropWhile isSpaceChar).reverse := by
      have h := pyStrip_append_cmd '/' ['s', 'e', 't', 't', 'i', 'n', 'g', 's'] s
        (by decide) (by decide)
      simpa [settingsCmdText] using h
    have h1 : startsWith startCmdText (pyStrip (settingsCmdText ++ s)) = false := by
      rw [f0]
      exact startsWith_append_false _ _ _ (by decide) (by decide)
    have h2 : startsWith helpCmdText (pyStrip (settingsCmdText ++ s)) = false := by
      rw [f0]
      exact startsWith_append_false _ _ _ (by decide) (by decide)
    have h3 : startsWith settingsCmdText (pyStrip (settingsCmdText ++ s)) = true := by
      rw [f0]
      exact startsWith_append_self _ _
    have e := handle_settings_branch users chat (settingsCmdText ++ s) h1 h2 h3
    constructor
    · rw [e]
    · rw [e]
      unfold cfgOf
      rw [lookup_setCfg_self]
      rfl

/-- Whether the trimmed text begins with one of the five recognized
command strings (the condition selecting a command branch). -/
def isCmdText (st : Str) : Bool :=
  startsWith startCmdText st || startsWith helpCmdText st ||
  startsWith settingsCmdText st || startsWith kwCmdText st ||
  startsWith auCmdText st

/-- The condition under which `handle_text_message` reaches its final
(unrecognized-message) branch: no command prefix and mode NONE. -/
def fallbackCond (users : Registry) (chat : Nat) (text0 : Str) : Bool :=
  !isCmdText (pyStrip text0) && ((cfgOf users chat).mode == Mode.none)

/-- C4 (amended): every registry change made while handling an inbound
message is followed by a synchronous whole-registry `save_users` call
before the handler returns — the last persisted snapshot equals the final
registry — **except** in the unrecognized-message branch (no command
prefix, mode NONE), which performs no persistence write even though it
creates an in-memory default config for a never-seen subscriber id. -/
theorem C4_persist_after_mutation (users : Registry) (chat : Nat) (text0 : Str) :
    ((handle_text_message users chat text0).saves.getLast? =
      if fallbackCond users chat text0 then Option.none
      else some (handle_text_message users chat text0).users) ∧
    (fallbackCond users chat text0 = true →
      (handle_text_message users chat text0).saves = [] ∧
      (handle_text_message users chat text0).users = ensureUser users chat ∧
      (handle_text_message users chat text0).replies =
        [(chat, Reply.unrecognized)]) := by
  cases g1 : startsWith startCmdText (pyStrip text0) with
  | true =>
    rw [handle_start_branch users chat text0 g1]
    simp [fallbackCond, isCmdText, g1]
  | false =>
  cases g2 : startsWith helpCmdText (pyStrip text0) with
  | true =>
    rw [handle_help_branch users chat text0 g1 g2]
    simp [fallbackCond, isCmdText, g2]
  | false =>
  cases g3 : startsWith settingsCmdText (pyStrip text0) with
  | true =>
    rw [handle_settings_branch users chat text0 g1 g2 g3]
    simp [fallbackCond, isCmdText, g3]
  | false =>
  cases g4 : startsWith kwCmdText (pyStrip text0) with
  | true =>
    cases g5 : (lowerStr (pyStrip ((pyStrip text0).drop kwCmdText.length)) ==
        clearWord) with
    | true =>
      rw [handle_kw_clear_branch users chat text0 g1 g2 g3 g4 g5]
      simp [fallbackCond, isCmdText, g4]
    | false =>
      cases g6 : (pyStrip ((pyStrip text0).drop kwCmdText.length)).isEmpty with
      | true =>
        rw [handle_kw_empty_branch users chat text0 g1 g2 g3 g4 g5 g6]
        simp [fallbackCond, isCmdText, g4]
      | false =>
        rw [handle_kw_args_branch users chat text0 g1 g2 g3 g4 g5 g6]
        simp [fallbackCond, isCmdText, g4]
  | false =>
  cases g4a : startsWith auCmdText (pyStrip text0) with
  | true =>
    cases g5 : (lowerStr (pyStrip ((pyStrip text0).drop auCmdText.length)) ==
        clearWord) with
    | true =>
      rw [handle_au_clear_branch users chat text0 g1 g2 g3 g4 g4a g5]
      simp [fallbackCond, isCmdText, g4a]
    | false =>
      cases g6 : (pyStrip ((pyStrip text0).drop auCmdText.length)).isEmpty with
      | true =>
        rw [handle_au_empty_branch users chat text0 g1 g2 g3 g4 g4a g5 g6]
        simp [fallbackCond, isCmdText, g4a]
      | false =>
        rw [handle_au_args_branch users chat text0 g1 g2 g3 g4 g4a g5 g6]
        simp [fallbackCond, isCmdText, g4a]
  | false =>
  cases hm : (cfgOf users chat).mode with
  | await_keywords =>
    rw [handle_await_kw_branch users chat text0 g1 g2 g3 g4 g4a hm]
    simp [fallbackCond, isCmdText, hm]
  | await_authors =>
    rw [handle_await_au_branch users chat text0 g1 g2 g3 g4 g4a hm]
    simp [fallbackCond, isCmdText, hm]
  | none =>
    rw [handle_fallback_branch users chat text0 g1 g2 g3 g4 g4a hm]
    simp [fallbackCond, isCmdText, g1, g2, g3, g4, g4a, hm]

/-- C4 counterexample to the claim as stated: an unrecognized message
from a never-seen subscriber changes the registry (creates the default
config) yet triggers no persistence write at all. -/
theorem C4_counterexample :
    (handle_text_message [] 1 "hello".toList).users = [(1, defaultCfg)] ∧
    (handle_text_message [] 1 "hello".toList).users ≠ [] ∧
    (handle_text_message [] 1 "hello".toList).saves = [] := by
  refine ⟨by decide, by decide, by decide⟩

theorem C4_persist_after_mutation_witness :
    (handle_text_message [] 1 "hi".toList).saves = [] ∧
    (handle_text_message [] 1 "hi".toList).users = ensureUser [] 1 ∧
    (handle_text_message [] 1 "hi".toList).replies = [(1, Reply.unrecognized)] :=
  (C4_persist_after_mutation [] 1 "hi".toList).2 (by decide)

/-- The first whitespace-delimited token of the trimmed inbound text. -/
def leadingToken (text : Str) : Str :=
  (pyStrip text).takeWhile (fun c => !isSpaceChar c)

/-- The leading token is one of the five recognized command strings. -/
def tokenCmd (text : Str) : Bool :=
  leadingToken text == startCmdText || leadingToken text == helpCmdText ||
  leadingToken text == settingsCmdText || leadingToken text == kwCmdText ||
  leadingToken text == auCmdText

theorem split_of_token (text cmd : Str) (h : leadingToken text = cmd) :
    ∃ tail, pyStrip text = cmd ++ tail :=
  ⟨(pyStrip text).dropWhile (fun c => !isSpaceChar c), by
    rw [← h]
    exact (List.takeWhile_append_dropWhile _ _).symm⟩

/-- C6 counterexample to the claim as stated: `"/keywords"` has a
recognized command as its leading token, yet after handling it the
subscriber's mode is AWAITING_KEYWORDS, not NONE. -/
theorem C6_counterexample :
    tokenCmd kwCmdText = true ∧
    (lookupCfg (handle_text_message [] 1 kwCmdText).users 1).map UserCfg.mode =
      some Mode.await_keywords ∧
    Mode.await_keywords ≠ Mode.none :=
  ⟨by decide, by decide, by decide⟩

/-- C6 (amended): a text whose leading token is a recognized command is
handled identically for every stored mode (the awaiting-mode
interpretation is never applied to command text), and the mode afterwards
is NONE — except that `/keywords` and `/authors` with an empty argument
set AWAITING_KEYWORDS resp. AWAITING_AUTHORS. -/
theorem C6_command_priority_and_mode (users : Registry) (chat : Nat)
    (text : Str) (m : Mode) (h : tokenCmd text = true) :
    handle_text_message (setMode users chat m) chat text =
      handle_text_message users chat text ∧
    (lookupCfg (handle_text_message users chat text).users chat).map UserCfg.mode =
      some
        (if startsWith kwCmdText (pyStrip text) &&
            (pyStrip ((pyStrip text).drop kwCmdText.length)).isEmpty then
          Mode.await_keywords
        else if startsWith auCmdText (pyStrip text) &&
            (pyStrip ((pyStrip text).drop auCmdText.length)).isEmpty then
          Mode.await_authors
        else Mode.none) := by
  simp only [tokenCmd, Bool.or_eq_true, beq_iff_eq] at h
  rcases h with (((h | h) | h) | h) | h
  · -- leading token `/start`
    obtain ⟨tail, hsplit⟩ := split_of_token text startCmdText h
    have hs : startsWith startCmdText (pyStrip text) = true := by
      rw [hsplit]; exact startsWith_append_self _ _
    have hkwF : startsWith kwCmdText (pyStrip text) = false := by
      rw [hsplit]; exact startsWith_append_false _ _ _ (by decide) (by decide)
    have hauF : startsWith auCmdText (pyStrip text) = false := by
      rw [hsplit]; exact startsWith_append_false _ _ _ (by decide) (by decide)
    constructor
    · rw [handle_start_branch (setMode users chat m) chat text hs,
        handle_start_branch users chat text hs]
      simp [cfgOf_setMode_keywords, cfgOf_setMode_tracked, setCfg_ensure_setMode]
    · rw [handle_start_branch users chat text hs]
      rw [lookup_setCfg_self]
      simp [hkwF, hauF]
  · -- leading token `/help`
    obtain ⟨tail, hsplit⟩ := split_of_token text helpCmdText h
    have h1 : startsWith startCmdText (pyStrip text) = false := by
      rw [hsplit]; exact startsWith_append_false _ _ _ (by decide) (by decide)
    have hs : startsWith helpCmdText (pyStrip text) = true := by
      rw [hsplit]; exact startsWith_append_self _ _
    have hkwF : startsWith kwCmdText (pyStrip text) = false := by
      rw [hsplit]; exact startsWith_append_false _ _ _ (by decide) (by decide)
    have hauF : startsWith auCmdText (pyStrip text) = false := by
      rw [hsplit]; exact startsWith_append_false _ _ _ (by decide) (by decide)
    constructor
    · rw [handle_help_branch (setMode users chat m) chat text h1 hs,
        handle_help_branch users chat text h1 hs]
      simp [cfgOf_setMode_keywords, cfgOf_setMode_tracked, setCfg_ensure_setMode]
    · rw [handle_help_branch users chat text h1 hs]
      rw [lookup_setCfg_self]
      simp [hkwF, hauF]
  · -- leading token `/settings`
    obtain ⟨tail, hsplit⟩ := split_of_token text settingsCmdText h
    have h1 : startsWith startCmdText (pyStrip text) = false := by
      rw [hsplit]; exact startsWith_append_false _ _ _ (by decide) (by decide)
    have h2 : startsWith helpCmdText (pyStrip text) = false := by
      rw [hsplit]; exact startsWith_append_false _ _ _ (by decide) (by decide)
    have hs : startsWith settingsCmdText (pyStrip text) = true := by
      rw [hsplit]; exact startsWith_append_self _ _
    have hkwF : startsWith kwCmdText (pyStrip text) = false := by
      rw [hsplit]; exact startsWith_append_false _ _ _ (by decide) (by decide)
    have hauF : startsWith auCmdText (pyStrip text) = false := by
      rw [hsplit]; exact startsWith_append_false _ _ _ (by decide) (by decide)
    constructor
    · rw [handle_settings_branch (setMode users chat m) chat text h1 h2 hs,
        handle_settings_branch users chat text h1 h2 hs]
      simp [cfgOf_setMode_keywords, cfgOf_setMode_tracked, setCfg_ensure_setMode]
    · rw [handle_settings_branch users chat text h1 h2 hs]
      rw [lookup_setCfg_self]
      simp [hkwF, hauF]
  · -- leading token `/keywords`
    obtain ⟨tail, hsplit⟩ := split_of_token text kwCmdText h
    have h1 : startsWith startCmdText (pyStrip text) = false := by
      rw [hsplit]; exact startsWith_append_false _ _ _ (by decide) (by decide)
    have h2 : startsWith helpCmdText (pyStrip text) = false := by
      rw [hsplit]; exact startsWith_append_false _ _ _ (by decide) (by decide)
    have h3 : startsWith settingsCmdText (pyStrip text) = false := by
      rw [hsplit]; exact startsWith_append_false _ _ _ (by decide) (by decide)
    have hs : startsWith kwCmdText (pyStrip text) = true := by
      rw [hsplit]; exact startsWith_append_self _ _
    have hauF : startsWith auCmdText (pyStrip text) = false := by
      rw [hsplit]; exact startsWith_append_false _ _ _ (by decide) (by decide)
    cases g5 : (lowerStr (pyStrip ((pyStrip text).drop kwCmdText.length)) ==
        clearWord) with
    | true =>
      have g6f : (pyStrip ((pyStrip text).drop kwCmdText.length)).isEmpty = false := by
        cases hrest : pyStrip ((pyStrip text).drop kwCmdText.length) with
        | nil => rw [hrest] at g5; exact absurd g5 (by decide)
        | cons a t => rfl
      constructor
      · rw [handle_kw_clear_branch (setMode users chat m) chat text h1 h2 h3 hs g5,
          handle_kw_clear_branch users chat text h1 h2 h3 hs g5]
        simp [cfgOf_setMode_keywords, cfgOf_setMode_tracked, setCfg_ensure_setMode]
      · rw [handle_kw_clear_branch users chat text h1 h2 h3 hs g5]
        rw [lookup_setCfg_self]
        simp [hs, g6f, hauF]
    | false =>
      cases g6 : (pyStrip ((pyStrip text).drop kwCmdText.length)).isEmpty with
      | true =>
        constructor
        · rw [handle_kw_empty_branch (setMode users chat m) chat text h1 h2 h3 hs g5 g6,
            handle_kw_empty_branch users chat text h1 h2 h3 hs g5 g6]
          simp [cfgOf_setMode_keywords, cfgOf_setMode_tracked, setCfg_ensure_setMode]
        · rw [handle_kw_empty_branch users chat text h1 h2 h3 hs g5 g6]
          rw [lookup_setCfg_self]
          simp [hs, g6]
      | false =>
        constructor
        · rw [handle_kw_args_branch (setMode users chat m) chat text h1 h2 h3 hs g5 g6,
            handle_kw_args_branch users chat text h1 h2 h3 hs g5 g6]
          simp [cfgOf_setMode_keywords, cfgOf_setMode_tracked, setCfg_ensure_setMode]
        · rw [handle_kw_args_branch users chat text h1 h2 h3 hs g5 g6]
          rw [lookup_setCfg_self]
          simp [hs, g6, hauF]
  · -- leading token `/authors`
    obtain ⟨tail, hsplit⟩ := split_of_token text auCmdText h
    have h1 : startsWith startCmdText (pyStrip text) = false := by
      rw [hsplit]; exact startsWith_append_false _ _ _ (by decide) (by decide)
    have h2 : startsWith helpCmdText (pyStrip text) = false := by
      rw [hsplit]; exact startsWith_append_false _ _ _ (by decide) (by decide)
    have h3 : startsWith settingsCmdText (pyStrip text) = false := by
      rw [hsplit]; exact startsWith_append_false _ _ _ (by decide) (by decide)
    have hkwF : startsWith kwCmdText (pyStrip text) = false := by
      rw [hsplit]; exact startsWith_append_false _ _ _ (by decide) (by decide)
    have hs : startsWith auCmdText (pyStrip text) = true := by
      rw [hsplit]; exact startsWith_append_self _ _
    cases g5 : (lowerStr (pyStrip ((pyStrip text).drop auCmdText.length)) ==
        clearWord) with
    | true =>
      have g6f : (pyStrip ((pyStrip text).drop auCmdText.length)).isEmpty = false := by
        cases hrest : pyStrip ((pyStrip text).drop auCmdText.length) with
        | nil => rw [hrest] at g5; exact absurd g5 (by decide)
        | cons a t => rfl
      constructor
      · rw [handle_au_clear_branch (setMode users chat m) chat text h1 h2 h3 hkwF hs g5,
          handle_au_clear_branch users chat text h1 h2 h3 hkwF hs g5]
        simp [cfgOf_setMode_keywords, cfgOf_setMode_tracked, setCfg_ensure_setMode]
      · rw [handle_au_clear_branch users chat text h1 h2 h3 hkwF hs g5]
        rw [lookup_setCfg_self]
        simp [hkwF, hs, g6f]
    | false =>
      cases g6 : (pyStrip ((pyStrip text).drop auCmdText.length)).isEmpty with
      | true =>
        constructor
        · rw [handle_au_empty_branch (setMode users chat m) chat text h1 h2 h3 hkwF hs g5 g6,
            handle_au_empty_branch users chat text h1 h2 h3 hkwF hs g5 g6]
          simp [cfgOf_setMode_keywords, cfgOf_setMode_tracked, setCfg_ensure_setMode]
        · rw [handle_au_empty_branch users chat text h1 h2 h3 hkwF hs g5 g6]
          rw [lookup_setCfg_self]
          simp [hkwF, hs, g6]
      | false =>
        constructor
        · rw [handle_au_args_branch (setMode users chat m) chat text h1 h2 h3 hkwF hs g5 g6,
            handle_au_args_branch users chat text h1 h2 h3 hkwF hs g5 g6]
          simp [cfgOf_setMode_keywords, cfgOf_setMode_tracked, setCfg_ensure_setMode]
        · rw [handle_au_args_branch users chat text h1 h2 h3 hkwF hs g5 g6]
          rw [lookup_setCfg_self]
          simp [hkwF, hs, g6]

/-- Spec-side: `link` contains a `/comments/<id>/` segment with the given
surrounding parts. -/
def SegDecomp (link pre id post : Str) : Prop :=
  link = pre ++ commentsPat ++ id ++ '/' :: post ∧ id ≠ [] ∧
    ∀ c ∈ id, isIdChar c = true

/-- Spec-side: `link` contains some `/comments/<id>/` segment. -/
def hasSeg (link : Str) : Prop := ∃ pre id post, SegDecomp link pre id post

theorem startsWith_length {p xs : Str} (h : startsWith p xs = true) :
    p.length ≤ xs.length := by
  induction p generalizing xs with
  | nil => simp
  | cons a ps ih =>
    cases xs with
    | nil => simp [startsWith] at h
    | cons b qs =>
      simp only [startsWith, Bool.and_eq_true] at h
      simpa using ih h.2

theorem startsWith_ex_append {p xs : Str} (h : startsWith p xs = true) :
    ∃ rest, xs = p ++ rest := by
  induction p generalizing xs with
  | nil => exact ⟨xs, rfl⟩
  | cons a ps ih =>
    cases xs with
    | nil => simp [startsWith] at h
    | cons b qs =>
      simp only [startsWith, Bool.and_eq_true, beq_iff_eq] at h
      obtain ⟨rest, hr⟩ := ih h.2
      exact ⟨rest, by simp [← h.1, hr]⟩

theorem takeWhile_append_drop (p : Char → Bool) (l : Str) :
    l.takeWhile p ++ l.drop (l.takeWhile p).length = l := by
  induction l with
  | nil => rfl
  | cons c cs ih =>
    by_cases h : p c = true
    · simp [List.takeWhile_cons, h, ih]
    · simp [List.takeWhile_cons, h]

theorem takeWhile_length_le (p : Char → Bool) (l : Str) :
    (l.takeWhile p).length ≤ l.length := by
  induction l with
  | nil => simp
  | cons c cs ih =>
    by_cases h : p c = true
    · simp [List.takeWhile_cons, h]
      exact ih
    · simp [List.takeWhile_cons, h]

theorem findComments_some_decomp {l g : Str}
    (h : findCommentsId l = some g) : ∃ pre post, SegDecomp l pre g post := by
  induction l with
  | nil => simp [findCommentsId] at h
  | cons c cs ih =>
    simp only [findCommentsId] at h
    cases hsw : startsWith commentsPat (c :: cs) with
    | false =>
      rw [hsw] at h
      simp only [Bool.false_eq_true, if_false] at h
      obtain ⟨pre, post, hdec, hne, hall⟩ := ih h
      exact ⟨c :: pre, post, by simp [hdec], hne, hall⟩
    | true =>
      rw [hsw] at h
      simp only [if_true] at h
      by_cases hc2 : (!((cs.drop 9).takeWhile isIdChar).isEmpty &&
          (((cs.drop 9).drop ((cs.drop 9).takeWhile isIdChar).length).head? ==
            some '/')) = true
      · rw [hc2] at h
        simp only [if_true, Option.some.injEq] at h
        subst h
        obtain ⟨rest0, hx⟩ := startsWith_ex_append hsw
        have hrest : cs.drop 9 = rest0 := by
          have h10 : (c :: cs).drop 10 = rest0 := by
            rw [hx]
            exact List.drop_left commentsPat rest0
          simpa using h10
        rw [hrest] at hc2
        rw [hrest]
        simp only [Bool.and_eq_true, Bool.not_eq_true'] at hc2
        obtain ⟨hrun, hhead⟩ := hc2
        have hne : rest0.takeWhile isIdChar ≠ [] := by
          intro hnil
          rw [hnil] at hrun
          exact Bool.noConfusion hrun
        have hsplit := takeWhile_append_drop isIdChar rest0
        cases hafter : rest0.drop (rest0.takeWhile isIdChar).length with
        | nil =>
          rw [hafter] at hhead
          exact absurd hhead (by decide)
        | cons a t =>
          rw [hafter] at hhead
          have ha : a = '/' := by simpa using hhead
          refine ⟨[], t, ?_, hne, fun x hx2 => List.mem_takeWhile_imp hx2⟩
          have hres : rest0 = rest0.takeWhile isIdChar ++ ('/' :: t) := by
            rw [← ha, ← hafter]
            exact hsplit.symm
          rw [hx]
          conv_lhs => rw [hres]
          simp [List.append_assoc]
      · rw [Bool.not_eq_true] at hc2
        rw [hc2] at h
        simp only [Bool.false_eq_true, if_false] at h
        obtain ⟨pre, post, hdec, hne, hall⟩ := ih h
        exact ⟨c :: pre, post, by simp [hdec], hne, hall⟩

theorem takeWhile_append_eq (a : Str) (b : Char) (t : Str)
    (ha : ∀ c ∈ a, isIdChar c = true) (hb : isIdChar b = false) :
    (a ++ b :: t).takeWhile isIdChar = a := by
  induction a with
  | nil => simp [List.takeWhile_cons, hb]
  | cons x xs ih =>
    have hx := ha x (by simp)
    simp only [List.cons_append, List.takeWhile_cons, hx, if_true]
    rw [ih (fun c hc => ha c (by simp [hc]))]

theorem findComments_decomp_isSome (pre id post : Str) (hid : id ≠ [])
    (hall : ∀ c ∈ id, isIdChar c = true) :
    (findCommentsId (pre ++ (commentsPat ++ (id ++ '/' :: post)))).isSome
      = true := by
  induction pre with
  | nil =>
    have hie : id.isEmpty = false := by
      cases id with
      | nil => exact absurd rfl hid
      | cons a t => rfl
    have htake : (id ++ '/' :: post).takeWhile isIdChar = id :=
      takeWhile_append_eq id '/' post hall (by decide)
    have hdropid : (id ++ '/' :: post).drop id.length = '/' :: post :=
      List.drop_left id ('/' :: post)
    have hsw : startsWith commentsPat
        ('/' :: 'c' :: 'o' :: 'm' :: 'm' :: 'e' :: 'n' :: 't' :: 's' :: '/' ::
          (id ++ '/' :: post)) = true := by
      have h0 := startsWith_append_self commentsPat (id ++ '/' :: post)
      simpa [commentsPat] using h0
    show (findCommentsId ('/' :: 'c' :: 'o' :: 'm' :: 'm' :: 'e' :: 'n' :: 't' ::
      's' :: '/' :: (id ++ '/' :: post))).isSome = true
    rw [findCommentsId, hsw]
    simp only [if_true]
    simp only [List.drop_succ_cons, List.drop_zero]
    rw [htake, hdropid]
    simp [hie]
  | cons c pre ih =>
    simp only [List.cons_append, findCommentsId]
    cases hsw : startsWith commentsPat
        (c :: (pre ++ (commentsPat ++ (id ++ '/' :: post)))) with
    | false =>
      simp only [Bool.false_eq_true, if_false]
      exact ih
    | true =>
      simp only [if_true]
      cases hc2 : (!(((pre ++ (commentsPat ++ (id ++ '/' :: post))).drop
          9).takeWhile isIdChar).isEmpty &&
          ((((pre ++ (commentsPat ++ (id ++ '/' :: post))).drop 9).drop
            (((pre ++ (commentsPat ++ (id ++ '/' :: post))).drop 9).takeWhile
              isIdChar).length).head? == some '/')) with
      | true => simp [hc2]
      | false =>
        simp only [hc2, Bool.false_eq_true, if_false]
        exact ih

theorem hasSeg_iff_isSome (l : Str) :
    hasSeg l ↔ (findCommentsId l).isSome = true := by
  constructor
  · rintro ⟨pre, id, post, hdec, hid, hall⟩
    rw [hdec]
    have := findComments_decomp_isSome pre id post hid hall
    simpa [List.append_assoc] using this
  · intro h
    cases hf : findCommentsId l with
    | none => rw [hf] at h; exact Bool.noConfusion h
    | some g =>
      obtain ⟨pre, post, hdec⟩ := findComments_some_decomp hf
      exact ⟨pre, g, post, hdec⟩

theorem ws_char_eq {c : Char} (h : isSpaceChar c = true) :
    c = ' ' ∨ c = '\t' ∨ c = '\n' ∨ c = '\r' ∨ c = '\x0b' ∨ c = '\x0c' := by
  simp [isSpaceChar] at h
  tauto

theorem ws_ne_slash {c : Char} (h : isSpaceChar c = true) :
    ('/' == c) = false := by
  rcases ws_char_eq h with rfl | rfl | rfl | rfl | rfl | rfl <;> decide

theorem ws_not_idChar {c : Char} (h : isSpaceChar c = true) :
    isIdChar c = false := by
  rcases ws_char_eq h with rfl | rfl | rfl | rfl | rfl | rfl <;> decide

theorem beq_false_of_ws {a c : Char} (ha : isSpaceChar a = false)
    (hc : isSpaceChar c = true) : (a == c) = false := by
  by_contra hx
  rw [Bool.not_eq_false] at hx
  have hac : a = c := by simpa using hx
  subst hac
  rw [hc] at ha
  exact Bool.noConfusion ha

theorem startsWith_ws_append : ∀ (p xs sfx : Str),
    (∀ a ∈ p, isSpaceChar a = false) → (∀ a ∈ sfx, isSpaceChar a = true) →
    startsWith p (xs ++ sfx) = startsWith p xs := by
  intro p
  induction p with
  | nil => intro xs sfx hp hs; simp [startsWith]
  | cons a ps ih =>
    intro xs sfx hp hs
    cases xs with
    | nil =>
      simp only [List.nil_append]
      cases sfx with
      | nil => rfl
      | cons s ss =>
        have hbe := beq_false_of_ws (hp a (by simp)) (hs s (by simp))
        simp [startsWith, hbe]
    | cons x xs2 =>
      simp only [List.cons_append, startsWith]
      rw [show xs2.append sfx = xs2 ++ sfx from rfl,
        ih xs2 sfx (fun b hb => hp b (by simp [hb])) hs]

theorem takeWhile_ws_append (xs sfx : Str)
    (hs : ∀ a ∈ sfx, isSpaceChar a = true) :
    (xs ++ sfx).takeWhile isIdChar = xs.takeWhile isIdChar := by
  induction xs with
  | nil =>
    simp only [List.nil_append]
    cases sfx with
    | nil => rfl
    | cons s ss => simp [List.takeWhile_cons, ws_not_idChar (hs s (by simp))]
  | cons x xs2 ih =>
    simp only [List.cons_append, List.takeWhile_cons]
    by_cases hx : isIdChar x = true
    · simp [hx, ih]
    · simp [hx]

theorem findComments_allws (sfx : Str)
    (hs : ∀ a ∈ sfx, isSpaceChar a = true) : findCommentsId sfx = none := by
  induction sfx with
  | nil => rfl
  | cons s ss ih =>
    have h1 : startsWith commentsPat (s :: ss) = false := by
      simp [commentsPat, startsWith, ws_ne_slash (hs s (by simp))]
    rw [findCommentsId, h1]
    simp only [Bool.false_eq_true, if_false]
    exact ih (fun a ha => hs a (by simp [ha]))

theorem findComments_ws_append (l sfx : Str)
    (hs : ∀ a ∈ sfx, isSpaceChar a = true) :
    findCommentsId (l ++ sfx) = findCommentsId l := by
  induction l with
  | nil => simpa using findComments_allws sfx hs
  | cons c cs ih =>
    have hsw : startsWith commentsPat (c :: (cs ++ sfx)) =
        startsWith commentsPat (c :: cs) := by
      simpa using startsWith_ws_append commentsPat (c :: cs) sfx (by decide) hs
    show findCommentsId (c :: (cs ++ sfx)) = findCommentsId (c :: cs)
    rw [findCommentsId, hsw]
    conv_rhs => rw [findCommentsId]
    cases hsw2 : startsWith commentsPat (c :: cs) with
    | false =>
      simp only [Bool.false_eq_true, if_false]
      exact ih
    | true =>
      simp only [if_true]
      have hlen : 9 ≤ cs.length := by
        have h10 := @startsWith_length commentsPat (c :: cs) hsw2
        simp [commentsPat] at h10
        omega
      have hdrop : (cs ++ sfx).drop 9 = cs.drop 9 ++ sfx := by
        rw [List.drop_append_eq_append_drop]
        simp [Nat.sub_eq_zero_of_le hlen]
      have htake : ((cs.drop 9) ++ sfx).takeWhile isIdChar =
          (cs.drop 9).takeWhile isIdChar := takeWhile_ws_append _ sfx hs
      have hrunlen : ((cs.drop 9).takeWhile isIdChar).length ≤ (cs.drop 9).length :=
        takeWhile_length_le _ _
      have hdrop2 : ((cs.drop 9) ++ sfx).drop
            ((cs.drop 9).takeWhile isIdChar).length =
          (cs.drop 9).drop ((cs.drop 9).takeWhile isIdChar).length ++ sfx := by
        rw [List.drop_append_eq_append_drop]
        have h5 := hrunlen
        rw [List.length_drop] at h5
        have h6 : ((cs.drop 9).takeWhile isIdChar).length - (cs.length - 9) = 0 := by
          omega
        simp [List.length_drop, h6]
      have hhead : ((((cs.drop 9).drop ((cs.drop 9).takeWhile isIdChar).length)
            ++ sfx).head? == some '/') =
          (((cs.drop 9).drop ((cs.drop 9).takeWhile isIdChar).length).head? ==
            some '/') := by
        cases hr : (cs.drop 9).drop ((cs.drop 9).takeWhile isIdChar).length with
        | cons a t => simp
        | nil =>
          simp only [List.nil_append]
          cases sfx with
          | nil => rfl
          | cons s ss =>
            have hws := hs s (by simp)
            have h1 : (s == '/') = false := by
              by_contra hx
              rw [Bool.not_eq_false] at hx
              have hsv : s = '/' := by simpa using hx
              subst hsv
              exact absurd hws (by decide)
            show (s == '/') = false
            exact h1
      rw [hdrop, htake, hdrop2, hhead, ih]

theorem findComments_lstrip (l : Str) :
    findCommentsId (l.dropWhile isSpaceChar) = findCommentsId l := by
  induction l with
  | nil => rfl
  | cons c cs ih =>
    by_cases hws : isSpaceChar c = true
    · have h1 : startsWith commentsPat (c :: cs) = false := by
        simp [commentsPat, startsWith, ws_ne_slash hws]
      rw [List.dropWhile_cons]
      simp only [hws, if_true]
      rw [ih]
      conv_rhs => rw [findCommentsId]
      rw [h1]
      simp
    · rw [List.dropWhile_cons]
      simp [hws]

theorem pyStrip_decomp (l : Str) :
    ∃ sfx, l.dropWhile isSpaceChar = pyStrip l ++ sfx ∧
      ∀ a ∈ sfx, isSpaceChar a = true := by
  refine ⟨((l.dropWhile isSpaceChar).reverse.takeWhile isSpaceChar).reverse,
    ?_, ?_⟩
  · have h1 : l.dropWhile isSpaceChar =
        ((l.dropWhile isSpaceChar).reverse.takeWhile isSpaceChar ++
         (l.dropWhile isSpaceChar).reverse.dropWhile isSpaceChar).reverse := by
      rw [List.takeWhile_append_dropWhile, List.reverse_reverse]
    conv_lhs => rw [h1]
    rw [List.reverse_append]
    rfl
  · intro a ha
    rw [List.mem_reverse] at ha
    exact List.mem_takeWhile_imp ha

theorem findComments_pyStrip (l : Str) :
    findCommentsId (pyStrip l) = findCommentsId l := by
  obtain ⟨sfx, hdec, hws⟩ := pyStrip_decomp l
  have h1 := findComments_ws_append (pyStrip l) sfx hws
  rw [← hdec] at h1
  rw [← h1]
  exact findComments_lstrip l

theorem extract_strip_invariant (l1 l2 : Str) (h : pyStrip l1 = pyStrip l2) :
    extract_post_id l1 = extract_post_id l2 := by
  have hf : findCommentsId l1 = findCommentsId l2 := by
    rw [← findComments_pyStrip l1, ← findComments_pyStrip l2, h]
  unfold extract_post_id
  cases h1 : l1.isEmpty with
  | true =>
    have hl1 : l1 = [] := List.isEmpty_iff.mp h1
    cases h2 : l2.isEmpty with
    | true => simp
    | false =>
      have hstrip2 : pyStrip l2 = [] := by
        rw [← h, hl1]
        rfl
      have hf2 : findCommentsId l2 = none := by
        rw [← findComments_pyStrip l2, hstrip2]
        rfl
      simp only [if_true, Bool.false_eq_true, if_false]
      rw [hf2]
      exact hstrip2.symm
  | false =>
    cases h2 : l2.isEmpty with
    | true =>
      have hl2 : l2 = [] := List.isEmpty_iff.mp h2
      have hstrip1 : pyStrip l1 = [] := by
        rw [h, hl2]
        rfl
      have hf1 : findCommentsId l1 = none := by
        rw [← findComments_pyStrip l1, hstrip1]
        rfl
      simp only [Bool.false_eq_true, if_false, if_true]
      rw [hf1]
      exact hstrip1
    | false =>
      simp only [Bool.false_eq_true, if_false]
      rw [hf]
      cases findCommentsId l2 with
      | some g => rfl
      | none => exact h

theorem contains_cons_eq (a x : Str) (l : List Str) :
    (a :: l).contains x = (x == a || l.contains x) := rfl

theorem contains_cons_self (a : Str) (l : List Str) :
    (a :: l).contains a = true := by
  simp [contains_cons_eq]

theorem dispatch_send_only {a t p : Str} {chat : Nat} {cfg : UserCfg} {ev : Ev}
    (h : dispatchForUser a t p chat cfg = some ev) :
    ∃ lbl, ev = Ev.send chat p lbl := by
  simp only [dispatchForUser] at h
  split at h
  · exact Option.noConfusion h
  · exact ⟨_, (Option.some.inj h).symm⟩

theorem processEntry_sends_only (users : Registry) (e : Entry) :
    ∀ ev ∈ users.filterMap (fun kv => evalEntryForUser e kv.1 kv.2),
      isSendEv ev = true ∧ isPersistEv ev = false := by
  intro ev hev
  obtain ⟨kv, hkv, hsome⟩ := List.mem_filterMap.mp hev
  obtain ⟨lbl, rfl⟩ := dispatch_send_only hsome
  exact ⟨rfl, rfl⟩

theorem processEntry_eq_skip (users : Registry) (seen : List Str) (e : Entry)
    (h : seen.contains (extract_post_id e.link) = true) :
    processEntry users seen e = ([], seen) := by
  simp only [processEntry]
  rw [h]
  simp

theorem processEntry_eq_go (users : Registry) (seen : List Str) (e : Entry)
    (h : seen.contains (extract_post_id e.link) = false) :
    processEntry users seen e =
      (users.filterMap (fun kv => evalEntryForUser e kv.1 kv.2) ++
        [Ev.persistSeen (extract_post_id e.link :: seen)],
       extract_post_id e.link :: seen) := by
  simp only [processEntry]
  rw [h]
  simp

theorem processEntry_contains_mono (users : Registry) (seen : List Str)
    (e : Entry) (x : Str) (h : seen.contains x = true) :
    (processEntry users seen e).2.contains x = true := by
  cases hseen : seen.contains (extract_post_id e.link) with
  | true => rw [processEntry_eq_skip users seen e hseen]; exact h
  | false =>
    rw [processEntry_eq_go users seen e hseen]
    rw [contains_cons_eq, h]
    simp

theorem processEntry_contains_pid (users : Registry) (seen : List Str)
    (e : Entry) :
    (processEntry users seen e).2.contains (extract_post_id e.link) = true := by
  cases hseen : seen.contains (extract_post_id e.link) with
  | true => rw [processEntry_eq_skip users seen e hseen]; exact hseen
  | false =>
    rw [processEntry_eq_go users seen e hseen]
    exact contains_cons_self _ _

theorem feedTick_contains_mono (users : Registry) (es : List Entry)
    (seen : List Str) (x : Str) (h : seen.contains x = true) :
    ((feedTick users seen es).2).contains x = true := by
  induction es generalizing seen with
  | nil => simpa [feedTick] using h
  | cons e es ih =>
    simp only [feedTick]
    exact ih _ (processEntry_contains_mono users seen e x h)

theorem feedTick_contains_all (users : Registry) (seen : List Str)
    (es : List Entry) :
    ∀ e ∈ es, ((feedTick users seen es).2).contains (extract_post_id e.link)
      = true := by
  induction es generalizing seen with
  | nil => intro e he; exact absurd he (List.not_mem_nil e)
  | cons e0 es ih =>
    intro e he
    rcases List.mem_cons.mp he with rfl | he2
    · simp only [feedTick]
      exact feedTick_contains_mono users es _ _
        (processEntry_contains_pid users seen e)
    · simp only [feedTick]
      exact ih _ e he2

theorem feedTick_all_seen (users : Registry) (seen : List Str)
    (es : List Entry)
    (h : ∀ e ∈ es, seen.contains (extract_post_id e.link) = true) :
    feedTick users seen es = ([], seen) := by
  induction es with
  | nil => rfl
  | cons e es ih =>
    have hskip := processEntry_eq_skip users seen e (h e (by simp))
    simp only [feedTick, hskip]
    simp [ih (fun e2 he2 => h e2 (by simp [he2]))]

/-- C2: during a feed tick, every item not already in the seen ledger has
its id added to the in-memory ledger and persisted only after the full
dispatch pass over all subscribers for that item: the event trace for the
item is some sends followed by exactly one `save_seen` of the updated
ledger, for any registry (zero or more matching subscribers). -/
theorem C2_mark_seen_after_dispatch (users : Registry) (seen : List Str)
    (e : Entry) (h : seen.contains (extract_post_id e.link) = false) :
    (processEntry users seen e).2 = extract_post_id e.link :: seen ∧
    (processEntry users seen e).2.contains (extract_post_id e.link) = true ∧
    (processEntry users seen e).1.getLast? =
      some (Ev.persistSeen (extract_post_id e.link :: seen)) ∧
    ((processEntry users seen e).1.filter isPersistEv).length = 1 ∧
    ∃ sends, (processEntry users seen e).1 =
        sends ++ [Ev.persistSeen (extract_post_id e.link :: seen)] ∧
      ∀ ev ∈ sends, isSendEv ev = true := by
  have hfil : (users.filterMap (fun kv => evalEntryForUser e kv.1 kv.2)).filter
      isPersistEv = [] := by
    rw [List.filter_eq_nil]
    intro ev hev
    simp [(processEntry_sends_only users e ev hev).2]
  rw [processEntry_eq_go users seen e h]
  refine ⟨rfl, contains_cons_self _ _, List.getLast?_concat _, ?_, ?_⟩
  · rw [List.filter_append, hfil]
    rfl
  · exact ⟨_, rfl, fun ev hev => (processEntry_sends_only users e ev hev).1⟩

theorem C2_mark_seen_after_dispatch_witness :
    (processEntry [] [] ⟨"L".toList, "A".toList, "T".toList⟩).2 =
      extract_post_id "L".toList :: [] ∧
    (processEntry [] [] ⟨"L".toList, "A".toList, "T".toList⟩).2.contains
      (extract_post_id "L".toList) = true ∧
    (processEntry [] [] ⟨"L".toList, "A".toList, "T".toList⟩).1.getLast? =
      some (Ev.persistSeen (extract_post_id "L".toList :: [])) ∧
    ((processEntry [] [] ⟨"L".toList, "A".toList, "T".toList⟩).1.filter
      isPersistEv).length = 1 ∧
    ∃ sends, (processEntry [] [] ⟨"L".toList, "A".toList, "T".toList⟩).1 =
        sends ++ [Ev.persistSeen (extract_post_id "L".toList :: [])] ∧
      ∀ ev ∈ sends, isSendEv ev = true :=
  C2_mark_seen_after_dispatch [] [] ⟨"L".toList, "A".toList, "T".toList⟩
    (by decide)

/-- C3: for a fixed feed snapshot and registry, running the feed tick a
second time with the ledger carried over produces no events at all (in
particular no sends): every id from the first run is already seen, so the
second run skips every item. -/
theorem C3_second_run_sends_nothing (users : Registry) (seen : List Str)
    (entries : List Entry) :
    (∀ e ∈ entries,
      ((feedTick users seen entries).2).contains (extract_post_id e.link)
        = true) ∧
    (feedTick users ((feedTick users seen entries).2) entries).1 = [] := by
  refine ⟨feedTick_contains_all users seen entries, ?_⟩
  rw [feedTick_all_seen users _ entries (feedTick_contains_all users seen entries)]

theorem feedTick_append (users : Registry) (seen : List Str)
    (es1 es2 : List Entry) :
    feedTick users seen (es1 ++ es2) =
      ((feedTick users seen es1).1 ++
        (feedTick users (feedTick users seen es1).2 es2).1,
       (feedTick users (feedTick users seen es1).2 es2).2) := by
  induction es1 generalizing seen with
  | nil => simp [feedTick]
  | cons e es ih =>
    simp only [List.cons_append, feedTick]
    rw [show es.append es2 = es ++ es2 from rfl, ih]
    simp [List.append_assoc]

theorem feedTick_dup_skipped (users : Registry) (seen : List Str)
    (pre mid : List Entry) (e1 e2 : Entry)
    (h : extract_post_id e1.link = extract_post_id e2.link) :
    feedTick users seen (pre ++ e1 :: (mid ++ [e2])) =
      feedTick users seen (pre ++ e1 :: mid) := by
  rw [feedTick_append users seen pre (e1 :: (mid ++ [e2])),
    feedTick_append users seen pre (e1 :: mid)]
  simp only [feedTick]
  have hc : ((feedTick users
      (processEntry users (feedTick users seen pre).2 e1).2 mid).2).contains
      (extract_post_id e2.link) = true := by
    rw [← h]
    exact feedTick_contains_mono users mid _ _
      (processEntry_contains_pid users (feedTick users seen pre).2 e1)
  rw [feedTick_append users _ mid [e2]]
  have hskip : feedTick users
      ((feedTick users (processEntry users (feedTick users seen pre).2 e1).2
        mid).2) [e2] =
      ([], (feedTick users
        (processEntry users (feedTick users seen pre).2 e1).2 mid).2) := by
    apply feedTick_all_seen
    intro e he
    have he2 : e = e2 := by simpa using he
    rw [he2]
    exact hc
  rw [hskip]
  simp

theorem joinSep_ne_nil (xs : List Str) (h1 : xs ≠ [])
    (h2 : ∀ x ∈ xs, x ≠ []) : joinSep commaSpace xs ≠ [] := by
  cases xs with
  | nil => exact absurd rfl h1
  | cons x t =>
    cases t with
    | nil => simpa [joinSep] using h2 x (by simp)
    | cons y t2 =>
      have hx := h2 x (by simp)
      simp [joinSep, commaSpace, hx]

/-- C1: for every item and subscriber config (whose keywords satisfy the
spec's non-empty invariant), the dispatcher delivers iff the normalized
author is tracked or some keyword occurs in the lower-cased title, and
the `source_label` is exactly the spec-side label (both → "tracked author
+ keyword match"; author only → "tracked author"; keyword only →
"keyword match: " + comma-joined matched keywords in config order). -/
theorem C1_dispatch_or_semantics (e : Entry) (chat : Nat) (cfg : UserCfg)
    (hkw : ∀ kw ∈ cfg.keywords, kw ≠ []) :
    evalEntryForUser e chat cfg =
      Option.map (Ev.send chat (extract_post_id e.link))
        (specDecision cfg (normalize_author e.author) (lowerStr e.title)) ∧
    ((evalEntryForUser e chat cfg).isSome = true ↔
      (normalize_author e.author ∈ cfg.tracked_users ∨
        ∃ kw ∈ cfg.keywords, containsSub kw (lowerStr e.title) = true)) := by
  unfold evalEntryForUser dispatchForUser specDecision
  cases hc : cfg.tracked_users.contains (normalize_author e.author) with
  | true =>
    cases hk : cfg.keywords.any (fun kw => containsSub kw (lowerStr e.title)) with
    | true =>
      have hne : cfg.keywords.filter
          (fun kw => containsSub kw (lowerStr e.title)) ≠ [] := by
        obtain ⟨x, hx, hpx⟩ := List.any_eq_true.mp hk
        intro hnil
        exact absurd hpx (by simpa using List.filter_eq_nil.mp hnil x hx)
      have hie : (cfg.keywords.filter
          (fun kw => containsSub kw (lowerStr e.title))).isEmpty = false := by
        simp [List.isEmpty_iff, hne]
      constructor
      · simp [hc, hk, hie]
      · simp only [hc, hk]
        simp
        exact Or.inl (List.elem_iff.mp hc)
    | false =>
      have hnil : cfg.keywords.filter
          (fun kw => containsSub kw (lowerStr e.title)) = [] := by
        rw [List.filter_eq_nil]
        intro x hx
        simp only [Bool.not_eq_true]
        by_contra hpx
        rw [Bool.not_eq_false] at hpx
        have hany : cfg.keywords.any
            (fun kw => containsSub kw (lowerStr e.title)) = true :=
          List.any_eq_true.mpr ⟨x, hx, hpx⟩
        exact absurd hany (by simp [hk])
      have hie : (cfg.keywords.filter
          (fun kw => containsSub kw (lowerStr e.title))).isEmpty = true := by
        simp [List.isEmpty_iff, hnil]
      constructor
      · simp [hc, hk, hie]
      · simp only [hc, hk]
        simp
        exact Or.inl (List.elem_iff.mp hc)
  | false =>
    cases hk : cfg.keywords.any (fun kw => containsSub kw (lowerStr e.title)) with
    | true =>
      have hne : cfg.keywords.filter
          (fun kw => containsSub kw (lowerStr e.title)) ≠ [] := by
        obtain ⟨x, hx, hpx⟩ := List.any_eq_true.mp hk
        intro hnil
        exact absurd hpx (by simpa using List.filter_eq_nil.mp hnil x hx)
      have hie : (cfg.keywords.filter
          (fun kw => containsSub kw (lowerStr e.title))).isEmpty = false := by
        simp [List.isEmpty_iff, hne]
      have hjoin : joinSep commaSpace (cfg.keywords.filter
          (fun kw => containsSub kw (lowerStr e.title))) ≠ [] :=
        joinSep_ne_nil _ hne (fun x hx => hkw x (List.mem_filter.mp hx).1)
      have hjie : (joinSep commaSpace (cfg.keywords.filter
          (fun kw => containsSub kw (lowerStr e.title)))).isEmpty = false := by
        simp [List.isEmpty_iff, hjoin]
      constructor
      · simp [hc, hk, hie, hjie]
      · simp only [hc, hk]
        simp
        exact Or.inr (List.any_eq_true.mp hk)
    | false =>
      have hnil : cfg.keywords.filter
          (fun kw => containsSub kw (lowerStr e.title)) = [] := by
        rw [List.filter_eq_nil]
        intro x hx
        simp only [Bool.not_eq_true]
        by_contra hpx
        rw [Bool.not_eq_false] at hpx
        have hany : cfg.keywords.any
            (fun kw => containsSub kw (lowerStr e.title)) = true :=
          List.any_eq_true.mpr ⟨x, hx, hpx⟩
        exact absurd hany (by simp [hk])
      have hie : (cfg.keywords.filter
          (fun kw => containsSub kw (lowerStr e.title))).isEmpty = true := by
        simp [List.isEmpty_iff, hnil]
      constructor
      · simp [hc, hk, hie]
      · simp only [hc, hk]
        simp
        constructor
        · intro hmem
          have h2 : cfg.tracked_users.contains (normalize_author e.author) = true :=
            List.elem_iff.mpr hmem
          rw [hc] at h2
          exact Bool.noConfusion h2
        · intro x hx
          cases hpx : containsSub x (lowerStr e.title) with
          | false => rfl
          | true =>
            have hany : cfg.keywords.any
                (fun kw => containsSub kw (lowerStr e.title)) = true :=
              List.any_eq_true.mpr ⟨x, hx, hpx⟩
            exact absurd hany (by simp [hk])

theorem C1_dispatch_or_semantics_witness :
    (evalEntryForUser ⟨[], [], "Selling a Seiko 5".toList⟩ 7
        ⟨["seiko".toList], ["alice".toList], Mode.none⟩ =
      Option.map (Ev.send 7 (extract_post_id ([] : Str)))
        (specDecision ⟨["seiko".toList], ["alice".toList], Mode.none⟩
          (normalize_author ([] : Str))
          (lowerStr "Selling a Seiko 5".toList))) ∧
    ((evalEntryForUser ⟨[], [], "Selling a Seiko 5".toList⟩ 7
        ⟨["seiko".toList], ["alice".toList], Mode.none⟩).isSome = true ↔
      (normalize_author ([] : Str) ∈ [("alice".toList : Str)] ∨
        ∃ kw ∈ [("seiko".toList : Str)],
          containsSub kw (lowerStr "Selling a Seiko 5".toList) = true)) :=
  C1_dispatch_or_semantics ⟨[], [], "Selling a Seiko 5".toList⟩ 7
    ⟨["seiko".toList], ["alice".toList], Mode.none⟩ (by decide)

/-- C10: item-id extraction maps a link with a `/comments/<id>/` segment
to that segment, any other non-empty link to the trimmed link, and the
empty link to the empty string; consequently two feed items whose links
are both empty or equal after trimming share one ledger id, so once the
first is processed the later one contributes nothing to a feed tick
(it is never evaluated or delivered). -/
theorem C10_post_id_extraction_and_dedup :
    extract_post_id [] = [] ∧
    (∀ l : Str, hasSeg l →
      ∃ pre id post, SegDecomp l pre id post ∧ extract_post_id l = id) ∧
    (∀ l : Str, ¬hasSeg l → l ≠ [] → extract_post_id l = pyStrip l) ∧
    (∀ l1 l2 : Str, pyStrip l1 = pyStrip l2 →
      extract_post_id l1 = extract_post_id l2) ∧
    (∀ (users : Registry) (seen : List Str) (pre mid : List Entry)
      (e1 e2 : Entry), extract_post_id e1.link = extract_post_id e2.link →
      feedTick users seen (pre ++ e1 :: (mid ++ [e2])) =
        feedTick users seen (pre ++ e1 :: mid)) := by
  refine ⟨rfl, ?_, ?_, extract_strip_invariant, feedTick_dup_skipped⟩
  · intro l hseg
    have hsome := (hasSeg_iff_isSome l).mp hseg
    cases hf : findCommentsId l with
    | none => rw [hf] at hsome; exact Bool.noConfusion hsome
    | some g =>
      obtain ⟨pre, post, hdec⟩ := findComments_some_decomp hf
      refine ⟨pre, g, post, hdec, ?_⟩
      have hne : l ≠ [] := by
        intro hnil
        obtain ⟨heq, h2, h3⟩ := hdec
        rw [hnil] at heq
        simp [commentsPat] at heq
      have hie : l.isEmpty = false := by
        cases l with
        | nil => exact absurd rfl hne
        | cons a t => rfl
      unfold extract_post_id
      rw [hie]
      simp only [Bool.false_eq_true, if_false]
      rw [hf]
  · intro l hnseg hne
    have hf : findCommentsId l = none := by
      cases hf2 : findCommentsId l with
      | none => rfl
      | some g =>
        obtain ⟨pre, post, hdec⟩ := findComments_some_decomp hf2
        exact absurd ⟨pre, g, post, hdec⟩ hnseg
    have hie : l.isEmpty = false := by
      cases l with
      | nil => exact absurd rfl hne
      | cons a t => rfl
    unfold extract_post_id
    rw [hie]
    simp only [Bool.false_eq_true, if_false]
    rw [hf]

theorem C10_post_id_extraction_and_dedup_witness :
    (∃ pre id post,
      SegDecomp "x/comments/ab1/z".toList pre id post ∧
      extract_post_id "x/comments/ab1/z".toList = id) ∧
    extract_post_id "q!".toList = pyStrip "q!".toList ∧
    extract_post_id " q ".toList = extract_post_id "q  ".toList ∧
    feedTick [] []
        [⟨"a".toList, "u1".toList, "t1".toList⟩,
         ⟨"a".toList, "u2".toList, "t2".toList⟩] =
      feedTick [] [] [⟨"a".toList, "u1".toList, "t1".toList⟩] := by
  have hthm := C10_post_id_extraction_and_dedup
  refine ⟨?_, ?_, ?_, ?_⟩
  · exact hthm.2.1 _
      ⟨"x".toList, "ab1".toList, "z".toList, by decide, by decide, by decide⟩
  · exact hthm.2.2.1 _
      (fun hseg => absurd ((hasSeg_iff_isSome _).mp hseg) (by decide))
      (by decide)
  · exact hthm.2.2.2.1 _ _ (by decide)
  · exact hthm.2.2.2.2 [] [] [] [] _ _ (by decide)

theorem C6_command_priority_and_mode_witness :
    (handle_text_message (setMode [] 1 Mode.await_authors) 1 helpCmdText =
      handle_text_message [] 1 helpCmdText) ∧
    (lookupCfg (handle_text_message [] 1 helpCmdText).users 1).map UserCfg.mode =
      some
        (if startsWith kwCmdText (pyStrip helpCmdText) &&
            (pyStrip ((pyStrip helpCmdText).drop kwCmdText.length)).isEmpty then
          Mode.await_keywords
        else if startsWith auCmdText (pyStrip helpCmdText) &&
            (pyStrip ((pyStrip helpCmdText).drop auCmdText.length)).isEmpty then
          Mode.await_authors
        else Mode.none) :=
  C6_command_priority_and_mode [] 1 helpCmdText Mode.await_authors (by decide)

end WatchBot
